import Mathlib

/-!
Verification of the minibackup archive engine (src/src/BackupEngine.cpp,
second revision in the file, the one containing the per-frame CRC field;
line references below are into that revision) against its natural-language
specification.

Bytes are modelled as `Nat` values; every place the C++ source truncates to
a fixed width (`uint8_t` casts, 32-bit CRC arithmetic) the model applies the
corresponding `% 256` / 32-bit-preserving operation explicitly.
-/

set_option maxRecDepth 4000

/-! ### Little-endian byte encoding

`packFiles` serializes `uint64_t` / `uint32_t` fields by reinterpreting the
object representation as bytes (x86 little-endian), and `unpack` reads them
back the same way.  `le k n` is the `k`-byte little-endian encoding of `n`
(high bits beyond `k` bytes are lost, as in the C++ store of a fixed-width
integer); `fromLe` decodes. -/

def le : Nat → Nat → List Nat
  | 0, _ => []
  | k + 1, n => n % 256 :: le k (n / 256)

def fromLe : List Nat → Nat
  | [] => 0
  | b :: bs => b + 256 * fromLe bs

/-! ### CRC32 (include/CRC32.h, `CRC32::calculate`)

Bit loop with reflected polynomial 0xEDB88320, initial value 0xFFFFFFFF,
final one's complement.  The C++ computes `mask = -(crc & 1)` and
`crc = (crc >> 1) ^ (polynomial & mask)`; the mask trick is exactly the
conditional below.  Each data byte is first truncated with a `uint8_t`
cast. -/

def crcBitStep (crc : Nat) : Nat :=
  if crc % 2 = 1 then crc / 2 ^^^ 0xEDB88320 else crc / 2

def crcByteStep (crc b : Nat) : Nat :=
  Nat.iterate crcBitStep 8 (crc ^^^ b % 256)

namespace CRC32

def calculate (data : List Nat) : Nat :=
  0xFFFFFFFF ^^^ data.foldl crcByteStep 0xFFFFFFFF

end CRC32

/-! ### RLE codec (`rleCompress` / `rleDecompress`)

`rleCompress` walks the input maintaining the current run value and a count
that is capped at 255 (the `count < 255` guard in the inner `while`); each
run is emitted as the pair `count, value`.  `rleCompressAux v c xs` is the
state of the C++ loop: `v` is the byte the current run consists of, `c` the
count accumulated so far, `xs` the input not yet inspected. -/

def rleCompressAux (v c : Nat) : List Nat → List Nat
  | [] => [c, v]
  | y :: ys =>
    if y = v ∧ c < 255 then rleCompressAux v (c + 1) ys
    else c :: v :: rleCompressAux y 1 ys

def rleCompress : List Nat → List Nat
  | [] => []
  | x :: xs => rleCompressAux x 1 xs

/-- `rleDecompress` expands `count, value` pairs; the loop steps by two and
breaks when fewer than two bytes remain, silently dropping a trailing odd
byte. -/
def rleDecompress : List Nat → List Nat
  | c :: v :: rest => List.replicate c v ++ rleDecompress rest
  | _ => []

/-- A byte list consists of complete `count, value` pairs whose counts are
in `1..255`. -/
def rlePairsOk : List Nat → Bool
  | [] => true
  | [_] => false
  | c :: _ :: rest => (decide (1 ≤ c) && decide (c ≤ 255)) && rlePairsOk rest

/-! ### XOR cipher (`xorEncrypt`)

`buffer[k] ^= password[k % pwdLen]`; an empty password is the identity.
Each call restarts the password cycle at index 0 — the function is
stateless per call. -/

def xorEncryptFrom (pwd : List Nat) : Nat → List Nat → List Nat
  | _, [] => []
  | k, b :: bs => (b ^^^ pwd.getD (k % pwd.length) 0) :: xorEncryptFrom pwd (k + 1) bs

def xorEncrypt (buf pwd : List Nat) : List Nat :=
  if pwd.isEmpty then buf else xorEncryptFrom pwd 0 buf

/-! ### RC4 (`class RC4`, lines 523-545)

The 256-byte permutation is modelled as a function `Nat → Nat`.  A freshly
constructed C++ instance has `S` zero-initialized and `i = j = 0`; `init`
returns immediately on an empty key, leaving that zero state in place, and
otherwise runs the standard key schedule.  `cipher` advances `i`/`j`, swaps,
and XORs each buffer byte with the generated keystream byte; the state
update does not depend on the buffer contents. -/

structure RC4State where
  S : Nat → Nat
  i : Nat
  j : Nat

def rc4Swap (S : Nat → Nat) (a b : Nat) : Nat → Nat :=
  fun k => if k = a then S b else if k = b then S a else S k

def ksaStep (key : List Nat) (acc : (Nat → Nat) × Nat) (idx : Nat) : (Nat → Nat) × Nat :=
  let j := (acc.2 + acc.1 idx + key.getD (idx % key.length) 0) % 256
  (rc4Swap acc.1 idx j, j)

def rc4Init (key : List Nat) : RC4State :=
  if key.isEmpty then ⟨fun _ => 0, 0, 0⟩
  else ⟨((List.range 256).foldl (ksaStep key) (fun k => k, 0)).1, 0, 0⟩

def rc4Step (st : RC4State) (b : Nat) : RC4State × Nat :=
  let i := (st.i + 1) % 256
  let j := (st.j + st.S i) % 256
  let S := rc4Swap st.S i j
  (⟨S, i, j⟩, b ^^^ S ((S i + S j) % 256))

def rc4Cipher (st : RC4State) : List Nat → RC4State × List Nat
  | [] => (st, [])
  | b :: bs =>
    ((rc4Cipher (rc4Step st b).1 bs).1,
     (rc4Step st b).2 :: (rc4Cipher (rc4Step st b).1 bs).2)

/-- Ciphering an ordered sequence of buffers with one instance whose state
threads continuously across the whole sequence (the per-archive usage in
`packFiles` / `unpack`). -/
def rc4CipherSeq (st : RC4State) : List (List Nat) → RC4State × List (List Nat)
  | [] => (st, [])
  | buf :: bufs =>
    ((rc4CipherSeq (rc4Cipher st buf).1 bufs).1,
     (rc4Cipher st buf).2 :: (rc4CipherSeq (rc4Cipher st buf).1 bufs).2)

/-- The faulty decryption discipline C7 rules out: a freshly re-initialized
instance for every buffer. -/
def perBufferReinitDecrypt (key : List Nat) (cts : List (List Nat)) : List (List Nat) :=
  cts.map fun ct => (rc4Cipher (rc4Init key) ct).2

/-- The state a default-constructed C++ `RC4` has before (or instead of) key
scheduling: the permutation array is all zeros. -/
def IsZeroS (st : RC4State) : Prop := ∀ k, st.S k = 0

/-! ### Data model (include/BackupEngine.h and usage in BackupEngine.cpp)

Paths and byte strings are `List Nat`.  `fileBytes` models the on-disk
content of `absPath` that `packFiles` reads for a regular record; the other
fields are the struct fields the current revision reads and writes
(`relPath`, `type`, `size`, `linkTarget`, `mode`, `uid`, `gid`, `mtime`).
Signed C++ fields (`type`, `startTime`, `targetUid`, `mtime`) are `Int`. -/

inductive FileType where
  | REGULAR
  | DIRECTORY
  | SYMLINK
  | OTHER
deriving DecidableEq, Repr

structure FileRecord where
  relPath : List Nat
  type : FileType
  size : Nat
  linkTarget : List Nat
  fileBytes : List Nat
  mode : Nat
  uid : Nat
  gid : Nat
  mtime : Int
deriving DecidableEq, Repr

structure FilterOptions where
  nameContains : List Nat
  pathContains : List Nat
  type : Int
  minSize : Nat
  maxSize : Nat
  startTime : Int
  targetUid : Int
deriving DecidableEq, Repr

/-- `std::string::find(needle) != npos`: some position of `hay` starts with
`needle`. -/
def hasTheSubstr (hay needle : List Nat) : Bool :=
  match hay with
  | [] => needle.isEmpty
  | b :: t => needle.isPrefixOf (b :: t) || hasTheSubstr t needle

/-- `fs::path(p).filename()`: the component after the last separator. -/
def filenameOf (p : List Nat) : List Nat :=
  (p.reverse.takeWhile fun b => b != 47).reverse

/-- `checkFilter` of the current revision (lines 556-590): sequential early
returns for name substring, path substring, type selector, the unconditional
directory acceptance, the size range for regular files and the mtime floor.
This revision contains no `targetUid` test. -/
def checkFilter (record : FileRecord) (opts : FilterOptions) : Bool :=
  if opts.nameContains ≠ [] ∧
      hasTheSubstr (filenameOf record.relPath) opts.nameContains = false then false
  else if opts.pathContains ≠ [] ∧
      hasTheSubstr record.relPath opts.pathContains = false then false
  else if opts.type ≠ -1 ∧
      ((opts.type = 0 ∧ record.type ≠ FileType.REGULAR)
       ∨ (opts.type = 1 ∧ record.type ≠ FileType.DIRECTORY)
       ∨ (opts.type = 2 ∧ record.type ≠ FileType.SYMLINK)) then false
  else if record.type = FileType.DIRECTORY then true
  else if record.type = FileType.REGULAR ∧
      ((opts.minSize > 0 ∧ record.size < opts.minSize)
       ∨ (opts.maxSize > 0 ∧ record.size > opts.maxSize)) then false
  else if opts.startTime > 0 ∧ record.mtime < opts.startTime then false
  else true

/-- `checkFilter` of the earlier revision (lines 74-108), which additionally
rejects a record whose `uid` differs from a non-(-1) `targetUid` (with the
C++ `static_cast<uint32_t>` wrap on the comparison value). -/
def checkFilterPrev (record : FileRecord) (opts : FilterOptions) : Bool :=
  if opts.nameContains ≠ [] ∧
      hasTheSubstr (filenameOf record.relPath) opts.nameContains = false then false
  else if opts.pathContains ≠ [] ∧
      hasTheSubstr record.relPath opts.pathContains = false then false
  else if opts.type ≠ -1 ∧
      ((opts.type = 0 ∧ record.type ≠ FileType.REGULAR)
       ∨ (opts.type = 1 ∧ record.type ≠ FileType.DIRECTORY)
       ∨ (opts.type = 2 ∧ record.type ≠ FileType.SYMLINK)) then false
  else if record.type = FileType.DIRECTORY then true
  else if record.type = FileType.REGULAR ∧
      ((opts.minSize > 0 ∧ record.size < opts.minSize)
       ∨ (opts.maxSize > 0 ∧ record.size > opts.maxSize)) then false
  else if opts.startTime > 0 ∧ record.mtime < opts.startTime then false
  else if opts.targetUid ≠ -1 ∧
      record.uid ≠ (opts.targetUid % (2 ^ 32 : Int)).toNat then false
  else true

/-! Spec-side predicates of C4, written from the spec's words: each option
is either unbounded or constrains the record. -/

def NamePred (record : FileRecord) (opts : FilterOptions) : Prop :=
  opts.nameContains ≠ [] →
    hasTheSubstr (filenameOf record.relPath) opts.nameContains = true

def PathPred (record : FileRecord) (opts : FilterOptions) : Prop :=
  opts.pathContains ≠ [] → hasTheSubstr record.relPath opts.pathContains = true

def TypePred (record : FileRecord) (opts : FilterOptions) : Prop :=
  (opts.type = 0 → record.type = FileType.REGULAR)
  ∧ (opts.type = 1 → record.type = FileType.DIRECTORY)
  ∧ (opts.type = 2 → record.type = FileType.SYMLINK)

def SizePred (record : FileRecord) (opts : FilterOptions) : Prop :=
  record.type = FileType.REGULAR →
    ((opts.minSize > 0 → opts.minSize ≤ record.size)
     ∧ (opts.maxSize > 0 → record.size ≤ opts.maxSize))

def TimePred (record : FileRecord) (opts : FilterOptions) : Prop :=
  opts.startTime > 0 → opts.startTime ≤ record.mtime

/-- The record of C4's counterexample: a regular file owned by uid 5. -/
def uidDemoRecord : FileRecord :=
  ⟨[97], FileType.REGULAR, 3, [], [1, 2, 3], 420, 5, 0, 0⟩

/-- Filter options selecting uid 7 only, everything else unbounded. -/
def uidDemoOpts : FilterOptions :=
  ⟨[], [], -1, 0, 0, 0, 7⟩

/-! ### Archive writer (`BackupEngine::packFiles`, lines 774-854)

The container is the 8-byte magic of the requested cipher mode, one
compression-flag byte, then one frame per record (records of type OTHER are
skipped).  Per record: load the payload (file bytes or link target), RLE-
compress it when requested and non-empty, compute the CRC over the
compressed bytes (0 when empty), assemble the plaintext meta buffer, then
encrypt the meta buffer in ONE cipher call and the payload in one more,
threading the single per-archive RC4 instance across all calls.  Note the
magic is chosen from `encMode` alone; the password only gates whether the
cipher calls happen. -/

inductive EncryptionMode where
  | NONE
  | XOR
  | RC4
deriving DecidableEq, Repr

inductive CompressionMode where
  | NONE
  | RLE
deriving DecidableEq, Repr

def nullMagic : List Nat := [77, 73, 78, 73, 66, 75, 49, 48]

def xorMagic : List Nat := [77, 73, 78, 73, 66, 75, 95, 88]

def rc4Magic : List Nat := [77, 73, 78, 73, 66, 75, 95, 82]

def magicBytes : EncryptionMode → List Nat
  | EncryptionMode.RC4 => rc4Magic
  | EncryptionMode.XOR => xorMagic
  | EncryptionMode.NONE => nullMagic

def typeCodeOf : FileType → Nat
  | FileType.REGULAR => 1
  | FileType.DIRECTORY => 2
  | _ => 3

/-- The bytes loaded for a record before compression: regular files
contribute their content, symlinks their target string, directories
nothing. -/
def rawPayload (rec : FileRecord) : List Nat :=
  match rec.type with
  | FileType.REGULAR => rec.fileBytes
  | FileType.SYMLINK => rec.linkTarget
  | _ => []

def packPayload (comp : CompressionMode) (rec : FileRecord) : List Nat :=
  if comp = CompressionMode.RLE ∧ rawPayload rec ≠ [] then rleCompress (rawPayload rec)
  else rawPayload rec

def packCRC (comp : CompressionMode) (rec : FileRecord) : Nat :=
  if packPayload comp rec = [] then 0 else CRC32.calculate (packPayload comp rec)

/-- The plaintext meta buffer: type code, pathLen (8B LE), path bytes,
payloadLen (8B LE), crc32 (4B LE), mode/uid/gid (4B LE each), mtime
(8B LE two's complement). -/
def packMetaPlain (comp : CompressionMode) (rec : FileRecord) : List Nat :=
  typeCodeOf rec.type ::
    (le 8 rec.relPath.length ++ rec.relPath ++ le 8 (packPayload comp rec).length
     ++ le 4 (packCRC comp rec) ++ le 4 rec.mode ++ le 4 rec.uid ++ le 4 rec.gid
     ++ le 8 (rec.mtime % (2 ^ 64 : Int)).toNat)

/-- One writer-side cipher call: applied only when a password was given
(`rc4.init`/`rc4.cipher` and `xorEncrypt` are both guarded by
`!password.empty()` in `packFiles`). -/
def packEncrypt (m : EncryptionMode) (pwd : List Nat) (st : RC4State)
    (buf : List Nat) : RC4State × List Nat :=
  match m with
  | EncryptionMode.RC4 => if pwd ≠ [] then rc4Cipher st buf else (st, buf)
  | EncryptionMode.XOR => (st, if pwd ≠ [] then xorEncrypt buf pwd else buf)
  | EncryptionMode.NONE => (st, buf)

def packOneFrame (m : EncryptionMode) (pwd : List Nat) (comp : CompressionMode)
    (st : RC4State) (rec : FileRecord) : RC4State × List Nat :=
  if rec.type = FileType.OTHER then (st, [])
  else
    let e1 := packEncrypt m pwd st (packMetaPlain comp rec)
    let e2 := if packPayload comp rec = [] then (e1.1, [])
      else packEncrypt m pwd e1.1 (packPayload comp rec)
    (e2.1, e1.2 ++ e2.2)

def packFrames (m : EncryptionMode) (pwd : List Nat) (comp : CompressionMode) :
    RC4State → List FileRecord → List Nat
  | _, [] => []
  | st, rec :: recs =>
    (packOneFrame m pwd comp st rec).2
      ++ packFrames m pwd comp (packOneFrame m pwd comp st rec).1 recs

/-- The whole container.  The RC4 instance starts as the zero-filled default
and is key-scheduled only for RC4 mode with a non-empty password. -/
def packFilesBytes (files : List FileRecord) (pwd : List Nat)
    (m : EncryptionMode) (comp : CompressionMode) : List Nat :=
  magicBytes m ++ [if comp = CompressionMode.RLE then 1 else 0]
    ++ packFrames m pwd comp
        (if m = EncryptionMode.RC4 ∧ pwd ≠ [] then rc4Init pwd else ⟨fun _ => 0, 0, 0⟩)
        files

/-- A one-file tree: the regular file `a` with content bytes `1, 2, 3`. -/
def demoRecord : FileRecord :=
  ⟨[97], FileType.REGULAR, 3, [], [1, 2, 3], 0, 0, 0, 0⟩

/-! ### Archive reader (`BackupEngine::unpack`, lines 864-972)

`unpack` reads the 8-byte magic (unknown magic is the only fatal format
error the function raises — there is no password-presence check anywhere),
reads the compression flag, then loops: read+decrypt type (1B),
pathLen (8B), path, payloadLen (8B), crc32 (4B), metaBlock (20B), then the
payload if payloadLen > 0, verifying the CRC over the decrypted
still-compressed bytes (a mismatch only logs a warning) and decompressing
afterwards.  The RC4 instance is keyed from the password even when the
password is empty, and the cipher is applied unconditionally for a non-Null
magic.

Short reads: a mid-frame short read puts the C++ stream in a failed state
(and a huge declared length aborts the `std::vector` allocation), so the
truncated frame produces no usable entry and the loop terminates; the model
marks the result `truncated` and drops the partial frame. -/

inductive UnpackError where
  | UnknownFormat
  | PasswordRequired
deriving DecidableEq, Repr

/-- One materialized archive entry: type code 1 = regular file (bytes
written), 2 = directory (created), 3 = symlink (target recreated), plus the
metadata handed to `chmod`/`chown`/`utime`; `mtime` is the raw 64-bit
little-endian field value. -/
structure UnpackEntry where
  typeCode : Nat
  relPath : List Nat
  fileData : List Nat
  mode : Nat
  uid : Nat
  gid : Nat
  mtime : Nat
deriving DecidableEq, Repr

structure UnpackResult where
  entries : List UnpackEntry
  warnings : List (List Nat)
  truncated : Bool
deriving DecidableEq, Repr

/-- The reader's cipher context. -/
inductive CipherCtx where
  | none
  | xor (pwd : List Nat)
  | rc4 (st : RC4State)

/-- One reader-side decrypt call on a just-read field, threading the RC4
state; XOR restarts its password cycle on every call. -/
def decryptField : CipherCtx → List Nat → CipherCtx × List Nat
  | CipherCtx.none, buf => (CipherCtx.none, buf)
  | CipherCtx.xor pwd, buf => (CipherCtx.xor pwd, xorEncrypt buf pwd)
  | CipherCtx.rc4 st, buf => (CipherCtx.rc4 (rc4Cipher st buf).1, (rc4Cipher st buf).2)

/-- Cipher contexts that behave as the identity on every field: the Null
context, XOR with an empty password, and RC4 whose permutation is all zeros
(the empty-key `init`). -/
def CtxId : CipherCtx → Prop
  | CipherCtx.none => True
  | CipherCtx.xor pwd => pwd = []
  | CipherCtx.rc4 st => IsZeroS st

/-- The outcome of decoding one frame. -/
structure FrameParse where
  entry : Option UnpackEntry
  warn : Option (List Nat)
  payloadLen : Nat
  crcField : Nat
  ctx : CipherCtx
  rest : List Nat
  truncated : Bool

/-- The reader's threading state between field reads: the cipher context
and the remaining input bytes. -/
structure ReadState where
  ctx : CipherCtx
  rest : List Nat

/-- Read `n` bytes and decrypt them.  A short read puts the C++ stream in a
failed state (and a huge declared length aborts the vector allocation), so
it yields no usable field value: modelled as `none`. -/
def readDecrypt (n : Nat) (s : ReadState) : Option (List Nat × ReadState) :=
  if s.rest.length < n then none
  else some ((decryptField s.ctx (s.rest.take n)).2,
             ⟨(decryptField s.ctx (s.rest.take n)).1, s.rest.drop n⟩)

/-- Decode one frame whose (encrypted) type byte `b` has already been read;
`rest` is the remaining input.  Field order as in the C++: type, pathLen,
path, payloadLen, crc32, metaBlock (mode/uid/gid/mtime), payload. -/
def parseFrame (isRLE : Bool) (ctx : CipherCtx) (b : Nat) (rest : List Nat) :
    FrameParse :=
  let d0 := decryptField ctx [b]
  let typeCode := d0.2.headD 0 % 256
  match readDecrypt 8 ⟨d0.1, rest⟩ with
  | none => ⟨none, none, 0, 0, d0.1, [], true⟩
  | some (lenB, s1) =>
    match readDecrypt (fromLe lenB) s1 with
    | none => ⟨none, none, 0, 0, s1.ctx, [], true⟩
    | some (pathB, s2) =>
      match readDecrypt 8 s2 with
      | none => ⟨none, none, 0, 0, s2.ctx, [], true⟩
      | some (sizeB, s3) =>
        match readDecrypt 4 s3 with
        | none => ⟨none, none, fromLe sizeB, 0, s3.ctx, [], true⟩
        | some (crcB, s4) =>
          match readDecrypt 20 s4 with
          | none => ⟨none, none, fromLe sizeB, fromLe crcB, s4.ctx, [], true⟩
          | some (metaB, s5) =>
            if fromLe sizeB = 0 then
              ⟨some ⟨typeCode, pathB, [], fromLe (metaB.take 4),
                 fromLe ((metaB.drop 4).take 4), fromLe ((metaB.drop 8).take 4),
                 fromLe (metaB.drop 12)⟩,
               none, 0, fromLe crcB, s5.ctx, s5.rest, false⟩
            else
              match readDecrypt (fromLe sizeB) s5 with
              | none => ⟨none, none, fromLe sizeB, fromLe crcB, s5.ctx, [], true⟩
              | some (payloadB, s6) =>
                ⟨some ⟨typeCode, pathB,
                   (if isRLE then rleDecompress payloadB else payloadB),
                   fromLe (metaB.take 4), fromLe ((metaB.drop 4).take 4),
                   fromLe ((metaB.drop 8).take 4), fromLe (metaB.drop 12)⟩,
                 (if CRC32.calculate payloadB ≠ fromLe crcB then some pathB
                  else none),
                 fromLe sizeB, fromLe crcB, s6.ctx, s6.rest, false⟩

instance : DecidableEq (Except UnpackError UnpackResult)
  | Except.ok x, Except.ok y =>
    if h : x = y then Decidable.isTrue (by rw [h])
    else Decidable.isFalse (by intro hc; cases hc; exact h rfl)
  | Except.ok _, Except.error _ => Decidable.isFalse (by intro hc; cases hc)
  | Except.error _, Except.ok _ => Decidable.isFalse (by intro hc; cases hc)
  | Except.error x, Except.error y =>
    if h : x = y then Decidable.isTrue (by rw [h])
    else Decidable.isFalse (by intro hc; cases hc; exact h rfl)

/-- The frame loop; `fuel` is instantiated with the length of the remaining
input, which suffices because every iteration consumes at least the type
byte. -/
def unpackFrames (isRLE : Bool) : Nat → CipherCtx → List Nat → UnpackResult
  | 0, _, _ => ⟨[], [], false⟩
  | _ + 1, _, [] => ⟨[], [], false⟩
  | fuel + 1, ctx, b :: rest =>
    let f := parseFrame isRLE ctx b rest
    if f.truncated then ⟨[], [], true⟩
    else
      let res := unpackFrames isRLE fuel f.ctx f.rest
      ⟨f.entry.toList ++ res.entries, f.warn.toList ++ res.warnings, res.truncated⟩

/-- The whole reader: magic dispatch (RC4, XOR, then MINIBK10, otherwise the
fatal UnknownFormat), compression flag, frame loop. -/
def unpackBytes (bs : List Nat) (pwd : List Nat) : Except UnpackError UnpackResult :=
  if bs.take 8 = rc4Magic then
    Except.ok (unpackFrames ((bs.drop 8).headD 0 == 1) (bs.drop 9).length
      (CipherCtx.rc4 (rc4Init pwd)) (bs.drop 9))
  else if bs.take 8 = xorMagic then
    Except.ok (unpackFrames ((bs.drop 8).headD 0 == 1) (bs.drop 9).length
      (CipherCtx.xor pwd) (bs.drop 9))
  else if bs.take 8 = nullMagic then
    Except.ok (unpackFrames ((bs.drop 8).headD 0 == 1) (bs.drop 9).length
      CipherCtx.none (bs.drop 9))
  else Except.error UnpackError.UnknownFormat

/-! ### Theorems -/

/-- Decompressing the frozen loop state yields the pending run followed by
the compression of the remaining input. -/
theorem rleDecompress_rleCompressAux :
    ∀ (xs : List Nat) (v c : Nat),
      rleDecompress (rleCompressAux v c xs) = List.replicate c v ++ xs
  | [], v, c => by simp [rleCompressAux, rleDecompress]
  | y :: ys, v, c => by
    by_cases h : y = v ∧ c < 255
    · rw [rleCompressAux, if_pos h, rleDecompress_rleCompressAux ys v (c + 1),
        List.replicate_succ', h.1]
      simp
    · rw [rleCompressAux, if_neg h, rleDecompress, rleDecompress_rleCompressAux ys y 1]
      simp [List.replicate]

/-- RLE round-trip: decompression inverts compression on every input. -/
theorem rleDecompress_rleCompress (x : List Nat) :
    rleDecompress (rleCompress x) = x := by
  cases x with
  | nil => simp [rleCompress, rleDecompress]
  | cons a xs => rw [rleCompress, rleDecompress_rleCompressAux]; simp [List.replicate]

/-- The compressor's loop state always flushes to well-formed pairs with
counts in `1..255`. -/
theorem rlePairsOk_rleCompressAux :
    ∀ (xs : List Nat) (v c : Nat), 1 ≤ c → c ≤ 255 →
      rlePairsOk (rleCompressAux v c xs) = true
  | [], v, c, h1, h2 => by simp [rleCompressAux, rlePairsOk, h1, h2]
  | y :: ys, v, c, h1, h2 => by
    by_cases h : y = v ∧ c < 255
    · rw [rleCompressAux, if_pos h]
      exact rlePairsOk_rleCompressAux ys v (c + 1) (by omega) (by omega)
    · rw [rleCompressAux, if_neg h, rlePairsOk]
      have ih := rlePairsOk_rleCompressAux ys y 1 (by omega) (by omega)
      simp [ih, h1, h2]

/-- Compressing a constant run from loop state `(v, c)`: if the whole run
fits in the cap it becomes one pair, otherwise a 255-pair is emitted and the
rest is compressed afresh. -/
theorem rleCompressAux_replicate :
    ∀ (n v c : Nat), 1 ≤ c → c ≤ 255 →
      rleCompressAux v c (List.replicate n v) =
        if n + c ≤ 255 then [n + c, v]
        else 255 :: v :: rleCompress (List.replicate (n + c - 255) v)
  | 0, v, c, h1, h2 => by simp [rleCompressAux, h2]
  | n + 1, v, c, h1, h2 => by
    rw [List.replicate_succ, rleCompressAux]
    by_cases h : c < 255
    · rw [if_pos ⟨rfl, h⟩, rleCompressAux_replicate n v (c + 1) (by omega) (by omega)]
      have e : n + (c + 1) = n + 1 + c := by omega
      rw [e]
    · have hc : c = 255 := by omega
      rw [if_neg (by simp [hc])]
      subst hc
      have hbig : ¬ n + 1 + 255 ≤ 255 := by omega
      rw [if_neg hbig]
      have : n + 1 + 255 - 255 = n + 1 := by omega
      rw [this, List.replicate_succ, rleCompress]

/-- A run of 300 identical bytes splits into exactly two pairs. -/
theorem rleCompress_replicate_300 (b : Nat) :
    rleCompress (List.replicate 300 b) = [255, b, 45, b] := by
  rw [show (300 : Nat) = 299 + 1 by rfl, List.replicate_succ, rleCompress,
    rleCompressAux_replicate 299 b 1 (by omega) (by omega)]
  rw [if_neg (by omega)]
  have h45 : 299 + 1 - 255 = 44 + 1 := by omega
  rw [h45, List.replicate_succ, rleCompress,
    rleCompressAux_replicate 44 b 1 (by omega) (by omega)]
  rw [if_pos (by omega)]

/-- Decompression ignores a trailing odd byte appended after complete
pairs. -/
theorem rleDecompress_append_odd :
    ∀ (l : List Nat) (b : Nat), l.length % 2 = 0 →
      rleDecompress (l ++ [b]) = rleDecompress l
  | [], b, _ => by simp [rleDecompress]
  | [a], b, h => by simp at h
  | c :: v :: rest, b, h => by
    have hr : rest.length % 2 = 0 := by
      simp only [List.length_cons] at h; omega
    have ih := rleDecompress_append_odd rest b hr
    simp only [List.cons_append, rleDecompress]
    exact congrArg (fun t => List.replicate c v ++ t) ih

/-- C6: `rleDecompress` inverts `rleCompress` on every byte sequence; the
compressed form is a sequence of `(runLength, value)` pairs with run lengths
in `1..255`; a run of 300 identical bytes splits into two pairs (more than
one); the empty input compresses to the empty output; and decompression
silently truncates a trailing odd byte rather than failing. -/
theorem c6_rle_roundtrip (x : List Nat) (b : Nat) (l : List Nat) :
    rleDecompress (rleCompress x) = x
    ∧ rlePairsOk (rleCompress x) = true
    ∧ rleCompress (List.replicate 300 b) = [255, b, 45, b]
    ∧ rleCompress ([] : List Nat) = []
    ∧ (l.length % 2 = 0 → rleDecompress (l ++ [b]) = rleDecompress l) := by
  refine ⟨rleDecompress_rleCompress x, ?_, rleCompress_replicate_300 b, rfl,
    fun h => rleDecompress_append_odd l b h⟩
  cases x with
  | nil => simp [rleCompress, rlePairsOk]
  | cons a xs => exact rlePairsOk_rleCompressAux xs a 1 (by omega) (by omega)

/-- Concrete instance of C6's conditional part: the even-length pair list
`[2,7,1,9]` with a trailing odd byte `5` decompresses as if the odd byte
were absent. -/
theorem c6_rle_roundtrip_witness :
    ([2, 7, 1, 9] : List Nat).length % 2 = 0
    ∧ rleDecompress ([2, 7, 1, 9] ++ [5]) = rleDecompress [2, 7, 1, 9] :=
  ⟨by decide, (c6_rle_roundtrip [7, 7, 9] 5 [2, 7, 1, 9]).2.2.2.2 (by decide)⟩

/-- Stepping the same state over an already-ciphered byte recovers the byte
and reaches the same state: the state update never reads the buffer. -/
theorem rc4Step_decrypt (st : RC4State) (b : Nat) :
    rc4Step st ((rc4Step st b).2) = ((rc4Step st b).1, b) := by
  simp only [rc4Step, Prod.mk.injEq]
  exact ⟨trivial, by rw [Nat.xor_assoc, Nat.xor_self, Nat.xor_zero]⟩

/-- Deciphering a ciphered buffer starting from the same state recovers the
buffer and ends in the same state. -/
theorem rc4Cipher_decrypt :
    ∀ (bs : List Nat) (st : RC4State),
      rc4Cipher st ((rc4Cipher st bs).2) = ((rc4Cipher st bs).1, bs)
  | [], st => rfl
  | b :: bs, st => by
    have ih := rc4Cipher_decrypt bs (rc4Step st b).1
    simp only [rc4Cipher]
    rw [rc4Step_decrypt]
    simp [ih]

/-- Sequence version: one continuously-threaded decrypting pass over the
ciphertext sequence recovers every buffer. -/
theorem rc4CipherSeq_decrypt :
    ∀ (bufs : List (List Nat)) (st : RC4State),
      rc4CipherSeq st ((rc4CipherSeq st bufs).2) = ((rc4CipherSeq st bufs).1, bufs)
  | [], st => rfl
  | buf :: bufs, st => by
    have ih := rc4CipherSeq_decrypt bufs (rc4Cipher st buf).1
    simp only [rc4CipherSeq]
    rw [rc4Cipher_decrypt]
    simp [ih]

/-- C7: for every non-empty key, ciphering an ordered sequence of buffers
with one RC4 instance initialized once, then ciphering the outputs in the
same order with a second freshly initialized instance of the same key,
reproduces the original buffers; and re-initializing the decrypting instance
before each buffer does not reproduce the originals for the two-buffer
sequence `[[0],[0]]` under key `[1]`. -/
theorem c7_rc4_continuity (key : List Nat) (bufs : List (List Nat))
    (_hkey : key ≠ []) :
    (rc4CipherSeq (rc4Init key) ((rc4CipherSeq (rc4Init key) bufs).2)).2 = bufs
    ∧ perBufferReinitDecrypt [1] ((rc4CipherSeq (rc4Init [1]) [[0], [0]]).2)
        ≠ [[0], [0]] := by
  refine ⟨?_, by decide⟩
  rw [rc4CipherSeq_decrypt]

/-- C7 at a concrete instance: key `[1]`, buffer sequence `[[5],[7]]`. -/
theorem c7_rc4_continuity_witness :
    ([1] : List Nat) ≠ []
    ∧ ((rc4CipherSeq (rc4Init [1]) ((rc4CipherSeq (rc4Init [1]) [[5], [7]]).2)).2
          = [[5], [7]]
       ∧ perBufferReinitDecrypt [1] ((rc4CipherSeq (rc4Init [1]) [[0], [0]]).2)
          ≠ [[0], [0]]) :=
  ⟨by decide, c7_rc4_continuity [1] [[5], [7]] (by decide)⟩

/-- Swapping two entries of the all-zero permutation yields all zeros. -/
theorem rc4Swap_zero {S : Nat → Nat} (h : ∀ k, S k = 0) (a b k : Nat) :
    rc4Swap S a b k = 0 := by
  unfold rc4Swap
  split
  · exact h b
  · split
    · exact h a
    · exact h k

/-- One RC4 step from an all-zero permutation emits the input byte unchanged
(the keystream byte is zero) and keeps the permutation all-zero. -/
theorem rc4Step_zero (st : RC4State) (h : IsZeroS st) (b : Nat) :
    (rc4Step st b).2 = b ∧ IsZeroS (rc4Step st b).1 := by
  constructor
  · simp only [rc4Step]
    simp [rc4Swap_zero h]
  · intro k
    simp only [rc4Step]
    exact rc4Swap_zero h _ _ k

/-- Ciphering with an all-zero permutation is the identity transform and
preserves the all-zero permutation. -/
theorem rc4Cipher_zero :
    ∀ (bs : List Nat) (st : RC4State), IsZeroS st →
      (rc4Cipher st bs).2 = bs ∧ IsZeroS (rc4Cipher st bs).1
  | [], st, h => ⟨rfl, h⟩
  | b :: bs, st, h => by
    obtain ⟨h1, h2⟩ := rc4Step_zero st h b
    obtain ⟨ih1, ih2⟩ := rc4Cipher_zero bs (rc4Step st b).1 h2
    exact ⟨by simp [rc4Cipher, h1, ih1], by simpa [rc4Cipher] using ih2⟩

/-- `init` with the empty key returns before key scheduling, leaving the
zero-filled default state in place. -/
theorem rc4Init_nil_zero : IsZeroS (rc4Init []) := fun _ => rfl

/-- C4 counterexample: the current `checkFilter` accepts a non-directory
record whose uid (5) differs from the requested `targetUid` (7); the uid
predicate named by the claim is not evaluated by the current revision. -/
theorem c4_checkFilter_counterexample :
    uidDemoOpts.targetUid = 7 ∧ uidDemoRecord.uid = 5
    ∧ uidDemoRecord.type ≠ FileType.DIRECTORY
    ∧ checkFilter uidDemoRecord uidDemoOpts = true := by decide

/-- C4 amended: the current `checkFilter` returns true iff the name, path
and type predicates hold and, unless the record is a directory (accepted
unconditionally once those pass), the size range (regular files only) and
mtime floor predicates hold; the `targetUid` option is ignored. -/
theorem c4_checkFilter_iff (record : FileRecord) (opts : FilterOptions) :
    checkFilter record opts = true ↔
      (NamePred record opts ∧ PathPred record opts ∧ TypePred record opts
       ∧ (record.type = FileType.DIRECTORY
          ∨ (SizePred record opts ∧ TimePred record opts))) := by
  unfold checkFilter NamePred PathPred TypePred SizePred TimePred
  split_ifs with h1 h2 h3 h4 h5 h6
  case _ =>
    simp only [false_iff]
    rintro ⟨hn, -, -, -⟩
    exact absurd (hn h1.1) (by simp [h1.2])
  case _ =>
    simp only [false_iff]
    rintro ⟨-, hp, -, -⟩
    exact absurd (hp h2.1) (by simp [h2.2])
  case _ =>
    simp only [false_iff]
    rintro ⟨-, -, ht, -⟩
    rcases h3.2 with ⟨e, hr⟩ | ⟨e, hr⟩ | ⟨e, hr⟩
    · exact hr (ht.1 e)
    · exact hr (ht.2.1 e)
    · exact hr (ht.2.2 e)
  case _ =>
    simp only [true_iff]
    refine ⟨fun hn => ?_, fun hp => ?_, ⟨fun e => ?_, fun e => ?_, fun e => ?_⟩, Or.inl h4⟩
    · rcases Bool.eq_false_or_eq_true (hasTheSubstr (filenameOf record.relPath) opts.nameContains) with hb | hb
      · exact hb
      · exact absurd ⟨hn, hb⟩ h1
    · rcases Bool.eq_false_or_eq_true (hasTheSubstr record.relPath opts.pathContains) with hb | hb
      · exact hb
      · exact absurd ⟨hp, hb⟩ h2
    · by_contra hr
      exact h3 ⟨by omega, Or.inl ⟨e, hr⟩⟩
    · by_contra hr
      exact h3 ⟨by omega, Or.inr (Or.inl ⟨e, hr⟩)⟩
    · by_contra hr
      exact h3 ⟨by omega, Or.inr (Or.inr ⟨e, hr⟩)⟩
  case _ =>
    simp only [false_iff]
    rintro ⟨-, -, -, hd | ⟨hs, -⟩⟩
    · exact h4 hd
    · rcases h5.2 with ⟨hm, hlt⟩ | ⟨hm, hgt⟩
      · exact absurd ((hs h5.1).1 hm) (by omega)
      · exact absurd ((hs h5.1).2 hm) (by omega)
  case _ =>
    simp only [false_iff]
    rintro ⟨-, -, -, hd | ⟨-, htime⟩⟩
    · exact h4 hd
    · exact absurd (htime h6.1) (by omega)
  case _ =>
    simp only [true_iff]
    refine ⟨fun hn => ?_, fun hp => ?_, ⟨fun e => ?_, fun e => ?_, fun e => ?_⟩, Or.inr ⟨fun hreg => ⟨fun hm => ?_, fun hm => ?_⟩, fun htime => ?_⟩⟩
    · rcases Bool.eq_false_or_eq_true (hasTheSubstr (filenameOf record.relPath) opts.nameContains) with hb | hb
      · exact hb
      · exact absurd ⟨hn, hb⟩ h1
    · rcases Bool.eq_false_or_eq_true (hasTheSubstr record.relPath opts.pathContains) with hb | hb
      · exact hb
      · exact absurd ⟨hp, hb⟩ h2
    · by_contra hr
      exact h3 ⟨by omega, Or.inl ⟨e, hr⟩⟩
    · by_contra hr
      exact h3 ⟨by omega, Or.inr (Or.inl ⟨e, hr⟩)⟩
    · by_contra hr
      exact h3 ⟨by omega, Or.inr (Or.inr ⟨e, hr⟩)⟩
    · by_contra hr
      exact h5 ⟨hreg, Or.inl ⟨hm, by omega⟩⟩
    · by_contra hr
      exact h5 ⟨hreg, Or.inr ⟨hm, by omega⟩⟩
    · by_contra hr
      exact h6 ⟨htime, by omega⟩

/-- The earlier revision's filter did evaluate the uid predicate: it rejects
the record C4's counterexample is built on. -/
theorem checkFilterPrev_rejects_uid :
    checkFilterPrev uidDemoRecord uidDemoOpts = false := by decide

/-- Each little-endian field encoding has its declared width. -/
theorem le_length : ∀ (k n : Nat), (le k n).length = k
  | 0, _ => rfl
  | k + 1, n => by simp [le, le_length k (n / 256)]

/-- Decoding inverts the little-endian encoding below the width bound. -/
theorem fromLe_le : ∀ (k n : Nat), n < 256 ^ k → fromLe (le k n) = n
  | 0, n, h => by
    rw [Nat.pow_zero] at h
    interval_cases n
    rfl
  | k + 1, n, h => by
    have hdiv : n / 256 < 256 ^ k := by
      rw [Nat.div_lt_iff_lt_mul (by norm_num)]
      rw [Nat.pow_succ] at h
      exact h
    rw [le, fromLe, fromLe_le k (n / 256) hdiv, Nat.mod_add_div]

/-- One CRC bit step stays below 2^32. -/
theorem crcBitStep_lt {crc : Nat} (h : crc < 2 ^ 32) : crcBitStep crc < 2 ^ 32 := by
  unfold crcBitStep
  have hd : crc / 2 < 2 ^ 32 := lt_of_le_of_lt (Nat.div_le_self _ _) h
  split
  · exact Nat.xor_lt_two_pow hd (by norm_num)
  · exact hd

theorem crcIterate_lt : ∀ (n crc : Nat), crc < 2 ^ 32 →
    Nat.iterate crcBitStep n crc < 2 ^ 32
  | 0, _, h => h
  | n + 1, crc, h => by
    rw [Function.iterate_succ_apply]
    exact crcIterate_lt n _ (crcBitStep_lt h)

theorem crcByteStep_lt {crc : Nat} (b : Nat) (h : crc < 2 ^ 32) :
    crcByteStep crc b < 2 ^ 32 :=
  crcIterate_lt 8 _ (Nat.xor_lt_two_pow h
    (by have := Nat.mod_lt b (show 0 < 256 by norm_num); omega))

theorem crcFold_lt : ∀ (data : List Nat) (crc : Nat), crc < 2 ^ 32 →
    data.foldl crcByteStep crc < 2 ^ 32
  | [], _, h => h
  | b :: bs, _, h => crcFold_lt bs _ (crcByteStep_lt b h)

/-- The computed CRC always fits its 4-byte field. -/
theorem crcCalculate_lt (data : List Nat) : CRC32.calculate data < 2 ^ 32 :=
  Nat.xor_lt_two_pow (by norm_num) (crcFold_lt data _ (by norm_num))

/-- C3 counterexample: packing with requested mode RC4 and an empty password
writes the RC4 magic as the first 8 container bytes, not MINIBK10. -/
theorem c3_empty_password_magic_counterexample :
    (packFilesBytes [] [] EncryptionMode.RC4 CompressionMode.NONE).take 8 = rc4Magic
    ∧ rc4Magic ≠ nullMagic := by decide

/-- C3 amended: the 8-byte magic is chosen from the requested cipher mode
alone, for every record list, password (empty or not) and compression mode;
an empty password only disables the cipher calls, it does not change the
magic. -/
theorem c3_magic_of_requested_mode (files : List FileRecord) (pwd : List Nat)
    (m : EncryptionMode) (comp : CompressionMode) :
    (packFilesBytes files pwd m comp).take 8 = magicBytes m := by
  have h8 : (magicBytes m).length = 8 := by cases m <;> rfl
  rw [packFilesBytes, List.append_assoc, List.take_left' h8]

/-- C5: for every frame the writer emits (every record except the skipped
OTHER type), the 8-byte payloadLen field at offset `9 + pathLen` of the
plaintext meta buffer decodes to the byte length of the payload after
compression, the 4-byte crc32 field at offset `17 + pathLen` decodes to the
CRC32 of the post-compression pre-encryption payload (0 when that payload is
empty), and the emitted frame is the encryption of the meta buffer followed
by the encryption of the already-compressed payload: compression happens
strictly before encryption. -/
theorem c5_frame_invariants (m : EncryptionMode) (pwd : List Nat)
    (comp : CompressionMode) (st : RC4State) (rec : FileRecord)
    (ho : rec.type ≠ FileType.OTHER)
    (hlen : (packPayload comp rec).length < 2 ^ 64) :
    fromLe (((packMetaPlain comp rec).drop (9 + rec.relPath.length)).take 8)
        = (packPayload comp rec).length
    ∧ fromLe (((packMetaPlain comp rec).drop (17 + rec.relPath.length)).take 4)
        = (if packPayload comp rec = [] then 0
           else CRC32.calculate (packPayload comp rec))
    ∧ (packOneFrame m pwd comp st rec).2
        = (packEncrypt m pwd st (packMetaPlain comp rec)).2
          ++ (if packPayload comp rec = [] then []
              else (packEncrypt m pwd (packEncrypt m pwd st (packMetaPlain comp rec)).1
                      (packPayload comp rec)).2) := by
  refine ⟨?_, ?_, ?_⟩
  · have hsplit : packMetaPlain comp rec
        = (typeCodeOf rec.type :: (le 8 rec.relPath.length ++ rec.relPath))
          ++ (le 8 (packPayload comp rec).length
              ++ (le 4 (packCRC comp rec) ++ le 4 rec.mode ++ le 4 rec.uid
                  ++ le 4 rec.gid ++ le 8 (rec.mtime % (2 ^ 64 : Int)).toNat)) := by
      simp [packMetaPlain]
    rw [hsplit, List.drop_left' (by simp [le_length]; omega),
      List.take_left' (le_length 8 _),
      fromLe_le 8 _ (by rw [show (256 : Nat) ^ 8 = 2 ^ 64 by norm_num]; exact hlen)]
  · have hsplit : packMetaPlain comp rec
        = (typeCodeOf rec.type ::
            (le 8 rec.relPath.length ++ rec.relPath
             ++ le 8 (packPayload comp rec).length))
          ++ (le 4 (packCRC comp rec)
              ++ (le 4 rec.mode ++ le 4 rec.uid ++ le 4 rec.gid
                  ++ le 8 (rec.mtime % (2 ^ 64 : Int)).toNat)) := by
      simp [packMetaPlain]
    have hcrc : packCRC comp rec < 256 ^ 4 := by
      rw [show (256 : Nat) ^ 4 = 2 ^ 32 by norm_num]
      unfold packCRC
      split
      · norm_num
      · exact crcCalculate_lt _
    rw [hsplit, List.drop_left' (by simp [le_length]; omega),
      List.take_left' (le_length 4 _), fromLe_le 4 _ hcrc]
    simp [packCRC]
  · by_cases hp : packPayload comp rec = [] <;> simp [packOneFrame, ho, hp]

/-- C5 at a concrete record: the one-file demo tree, Null cipher, no
compression. -/
theorem c5_frame_invariants_witness :
    (demoRecord.type ≠ FileType.OTHER
     ∧ (packPayload CompressionMode.NONE demoRecord).length < 2 ^ 64)
    ∧ (fromLe (((packMetaPlain CompressionMode.NONE demoRecord).drop
            (9 + demoRecord.relPath.length)).take 8)
          = (packPayload CompressionMode.NONE demoRecord).length
       ∧ fromLe (((packMetaPlain CompressionMode.NONE demoRecord).drop
            (17 + demoRecord.relPath.length)).take 4)
          = (if packPayload CompressionMode.NONE demoRecord = [] then 0
             else CRC32.calculate (packPayload CompressionMode.NONE demoRecord))
       ∧ (packOneFrame EncryptionMode.NONE [] CompressionMode.NONE
            ⟨fun _ => 0, 0, 0⟩ demoRecord).2
          = (packEncrypt EncryptionMode.NONE [] ⟨fun _ => 0, 0, 0⟩
               (packMetaPlain CompressionMode.NONE demoRecord)).2
            ++ (if packPayload CompressionMode.NONE demoRecord = [] then []
                else (packEncrypt EncryptionMode.NONE []
                        (packEncrypt EncryptionMode.NONE [] ⟨fun _ => 0, 0, 0⟩
                          (packMetaPlain CompressionMode.NONE demoRecord)).1
                        (packPayload CompressionMode.NONE demoRecord)).2)) :=
  ⟨⟨by decide, by decide⟩,
   c5_frame_invariants EncryptionMode.NONE [] CompressionMode.NONE
     ⟨fun _ => 0, 0, 0⟩ demoRecord (by decide) (by decide)⟩

/-- C8: any input whose first 8 bytes are none of the three known magics
makes `unpack` fail with the fatal UnknownFormat error; no frame is decoded
and no entry is materialized (the error result carries none — the only
filesystem action before the magic check is creating the destination root
itself, nothing under it). -/
theorem c8_unknown_magic (bs pwd : List Nat)
    (h1 : bs.take 8 ≠ rc4Magic) (h2 : bs.take 8 ≠ xorMagic)
    (h3 : bs.take 8 ≠ nullMagic) :
    unpackBytes bs pwd = Except.error UnpackError.UnknownFormat := by
  unfold unpackBytes
  rw [if_neg h1, if_neg h2, if_neg h3]

/-- C8 at a concrete malformed header. -/
theorem c8_unknown_magic_witness :
    (([0, 1, 2, 3, 4, 5, 6, 7] : List Nat).take 8 ≠ rc4Magic
     ∧ ([0, 1, 2, 3, 4, 5, 6, 7] : List Nat).take 8 ≠ xorMagic
     ∧ ([0, 1, 2, 3, 4, 5, 6, 7] : List Nat).take 8 ≠ nullMagic)
    ∧ unpackBytes [0, 1, 2, 3, 4, 5, 6, 7] []
        = Except.error UnpackError.UnknownFormat :=
  ⟨⟨by decide, by decide, by decide⟩,
   c8_unknown_magic _ _ (by decide) (by decide) (by decide)⟩

/-- C2 counterexample: unpacking an RC4-magic archive with an empty password
does not fail with PasswordRequired — it succeeds (here on an archive with
no frames), because `unpack` contains no password-presence check at all. -/
theorem c2_counterexample :
    unpackBytes (rc4Magic ++ [0]) [] = Except.ok ⟨[], [], false⟩
    ∧ unpackBytes (rc4Magic ++ [0]) []
        ≠ Except.error UnpackError.PasswordRequired := by decide

/-- C2 amended: for every archive with a non-Null magic and every password
(including the empty one), `unpack` proceeds straight into the frame loop
and returns an ok result; it never raises PasswordRequired. -/
theorem c2_unpack_no_password_check (bs pwd : List Nat)
    (h : bs.take 8 = rc4Magic ∨ bs.take 8 = xorMagic) :
    (∃ res : UnpackResult, unpackBytes bs pwd = Except.ok res)
    ∧ unpackBytes bs pwd ≠ Except.error UnpackError.PasswordRequired := by
  have hok : ∃ res : UnpackResult, unpackBytes bs pwd = Except.ok res := by
    unfold unpackBytes
    rcases h with h | h
    · rw [if_pos h]
      exact ⟨_, rfl⟩
    · rw [if_neg (by rw [h]; decide), if_pos h]
      exact ⟨_, rfl⟩
  obtain ⟨res, hr⟩ := hok
  refine ⟨⟨res, hr⟩, ?_⟩
  rw [hr]
  exact fun hc => Except.noConfusion hc

/-- C2's amended theorem at the concrete no-frame RC4 archive. -/
theorem c2_unpack_no_password_check_witness :
    ((rc4Magic ++ [0]).take 8 = rc4Magic ∨ (rc4Magic ++ [0]).take 8 = xorMagic)
    ∧ ((∃ res : UnpackResult, unpackBytes (rc4Magic ++ [0]) [] = Except.ok res)
       ∧ unpackBytes (rc4Magic ++ [0]) []
           ≠ Except.error UnpackError.PasswordRequired) :=
  ⟨Or.inl (by decide), c2_unpack_no_password_check _ _ (Or.inl (by decide))⟩

/-- C10: whenever the decoded payloadLen of a frame is 0 (every directory
frame and every empty-payload file frame), the reader consumes the 4-byte
crc32 field but emits no IntegrityWarning, whatever the stored crc value:
the CRC comparison sits inside the `if (dataSize > 0)` block. -/
theorem c10_zero_payload_no_warning (isRLE : Bool) (ctx : CipherCtx) (b : Nat)
    (rest : List Nat) :
    (parseFrame isRLE ctx b rest).payloadLen = 0 →
      (parseFrame isRLE ctx b rest).warn = none := by
  unfold parseFrame
  dsimp only
  cases e1 : readDecrypt 8 ⟨(decryptField ctx [b]).1, rest⟩ with
  | none => simp [e1]
  | some v1 =>
    obtain ⟨lenB, s1⟩ := v1
    dsimp only
    cases e2 : readDecrypt (fromLe lenB) s1 with
    | none => simp [e2]
    | some v2 =>
      obtain ⟨pathB, s2⟩ := v2
      dsimp only
      cases e3 : readDecrypt 8 s2 with
      | none => simp [e3]
      | some v3 =>
        obtain ⟨sizeB, s3⟩ := v3
        dsimp only
        cases e4 : readDecrypt 4 s3 with
        | none => simp [e4]
        | some v4 =>
          obtain ⟨crcB, s4⟩ := v4
          dsimp only
          cases e5 : readDecrypt 20 s4 with
          | none => simp [e5]
          | some v5 =>
            obtain ⟨metaB, s5⟩ := v5
            dsimp only
            by_cases hz : fromLe sizeB = 0
            · simp [hz]
            · rw [if_neg hz]
              cases e6 : readDecrypt (fromLe sizeB) s5 with
              | none => simp [e6]
              | some v6 =>
                obtain ⟨payloadB, s6⟩ := v6
                dsimp only
                intro hp
                exact absurd hp hz

/-- C10 at a concrete directory frame carrying the garbage crc field
`[222, 173, 190, 239]`. -/
theorem c10_zero_payload_no_warning_witness :
    (parseFrame false CipherCtx.none 2
        (le 8 0 ++ le 8 0 ++ [222, 173, 190, 239]
         ++ List.replicate 20 0)).payloadLen = 0
    ∧ (parseFrame false CipherCtx.none 2
        (le 8 0 ++ le 8 0 ++ [222, 173, 190, 239]
         ++ List.replicate 20 0)).warn = none :=
  ⟨by decide, c10_zero_payload_no_warning _ _ _ _ (by decide)⟩

/-- C1 (code-bug demonstration): packing the one-file demo tree with XOR
mode and password "ab" yields an archive whose own unpack (same password)
restores nothing: `packFiles` XOR-encrypts the whole meta buffer in one call
(the password cycle runs across field boundaries) while `unpack` restarts
the cycle for every field, so the decoded pathLen is garbage and the frame
cannot be parsed.  The same tree through the Null cipher round-trips
exactly, isolating the failure to the XOR meta-buffer asymmetry. -/
theorem c1_xor_roundtrip_fails :
    unpackBytes (packFilesBytes [demoRecord] [97, 98] EncryptionMode.XOR
        CompressionMode.NONE) [97, 98]
      = Except.ok ⟨[], [], true⟩
    ∧ unpackBytes (packFilesBytes [demoRecord] [] EncryptionMode.NONE
        CompressionMode.NONE) []
      = Except.ok ⟨[⟨1, [97], [1, 2, 3], 0, 0, 0, 0⟩], [], false⟩ := by decide

/-- A field decrypt under an identity context (Null, XOR with empty
password, RC4 with the all-zero permutation) returns the buffer unchanged
and again an identity context. -/
theorem decryptField_id (c : CipherCtx) (buf : List Nat) (h : CtxId c) :
    (decryptField c buf).2 = buf ∧ CtxId (decryptField c buf).1 := by
  cases c with
  | none => exact ⟨rfl, trivial⟩
  | xor pwd =>
    have hp : pwd = [] := h
    subst hp
    exact ⟨by simp [decryptField, xorEncrypt], rfl⟩
  | rc4 st =>
    obtain ⟨h1, h2⟩ := rc4Cipher_zero buf st h
    exact ⟨h1, h2⟩

/-- `readDecrypt` under an identity context: short reads truncate exactly as
with the Null context; successful reads return the raw bytes and another
identity context. -/
theorem readDecrypt_id (n : Nat) (c : CipherCtx) (bs : List Nat) (h : CtxId c) :
    (bs.length < n → readDecrypt n ⟨c, bs⟩ = none)
    ∧ (¬ bs.length < n → ∃ c2, CtxId c2
        ∧ readDecrypt n ⟨c, bs⟩ = some (bs.take n, ⟨c2, bs.drop n⟩)) := by
  constructor
  · intro hlt
    simp [readDecrypt, hlt]
  · intro hge
    obtain ⟨h1, h2⟩ := decryptField_id c (bs.take n) h
    exact ⟨(decryptField c (bs.take n)).1, h2, by simp [readDecrypt, hge, h1]⟩

theorem decryptField_none (buf : List Nat) :
    decryptField CipherCtx.none buf = (CipherCtx.none, buf) := rfl

/-- `readDecrypt` with the Null context takes the raw bytes. -/
theorem readDecrypt_none (n : Nat) (bs : List Nat) :
    readDecrypt n ⟨CipherCtx.none, bs⟩
      = if bs.length < n then none
        else some (bs.take n, ⟨CipherCtx.none, bs.drop n⟩) := by
  simp [readDecrypt, decryptField]

/-- Decoding one frame under an identity cipher context produces the same
frame as decoding under the Null context, and the threaded context stays an
identity. -/
theorem parseFrame_idctx (isRLE : Bool) (c : CipherCtx) (b : Nat)
    (rest : List Nat) (h : CtxId c) :
    ∃ c2, CtxId c2
      ∧ parseFrame isRLE c b rest
          = { parseFrame isRLE CipherCtx.none b rest with ctx := c2 } := by
  obtain ⟨ht, hc0⟩ := decryptField_id c [b] h
  unfold parseFrame
  simp only [decryptField_none]
  rw [ht]
  by_cases h1 : rest.length < 8
  · rw [(readDecrypt_id 8 _ rest hc0).1 h1, readDecrypt_none, if_pos h1]
    exact ⟨(decryptField c [b]).1, hc0, rfl⟩
  · obtain ⟨c1, hc1, he1⟩ := (readDecrypt_id 8 _ rest hc0).2 h1
    rw [he1, readDecrypt_none, if_neg h1]
    dsimp only
    set r1 := rest.drop 8 with hr1
    set pl := fromLe (rest.take 8) with hpl
    by_cases h2 : r1.length < pl
    · rw [(readDecrypt_id pl _ r1 hc1).1 h2, readDecrypt_none, if_pos h2]
      exact ⟨c1, hc1, rfl⟩
    · obtain ⟨c2x, hc2, he2⟩ := (readDecrypt_id pl _ r1 hc1).2 h2
      rw [he2, readDecrypt_none, if_neg h2]
      dsimp only
      set r2 := r1.drop pl with hr2
      by_cases h3 : r2.length < 8
      · rw [(readDecrypt_id 8 _ r2 hc2).1 h3, readDecrypt_none, if_pos h3]
        exact ⟨c2x, hc2, rfl⟩
      · obtain ⟨c3x, hc3, he3⟩ := (readDecrypt_id 8 _ r2 hc2).2 h3
        rw [he3, readDecrypt_none, if_neg h3]
        dsimp only
        set r3 := r2.drop 8 with hr3
        set ds := fromLe (r2.take 8) with hds
        by_cases h4 : r3.length < 4
        · rw [(readDecrypt_id 4 _ r3 hc3).1 h4, readDecrypt_none, if_pos h4]
          exact ⟨c3x, hc3, rfl⟩
        · obtain ⟨c4x, hc4, he4⟩ := (readDecrypt_id 4 _ r3 hc3).2 h4
          rw [he4, readDecrypt_none, if_neg h4]
          dsimp only
          set r4 := r3.drop 4 with hr4
          by_cases h5 : r4.length < 20
          · rw [(readDecrypt_id 20 _ r4 hc4).1 h5, readDecrypt_none, if_pos h5]
            exact ⟨c4x, hc4, rfl⟩
          · obtain ⟨c5x, hc5, he5⟩ := (readDecrypt_id 20 _ r4 hc4).2 h5
            rw [he5, readDecrypt_none, if_neg h5]
            dsimp only
            set r5 := r4.drop 20 with hr5
            by_cases hz : ds = 0
            · simp only [if_pos hz]
              exact ⟨c5x, hc5, rfl⟩
            · simp only [if_neg hz]
              by_cases h6 : r5.length < ds
              · rw [(readDecrypt_id ds _ r5 hc5).1 h6, readDecrypt_none, if_pos h6]
                exact ⟨c5x, hc5, rfl⟩
              · obtain ⟨c6x, hc6, he6⟩ := (readDecrypt_id ds _ r5 hc5).2 h6
                rw [he6, readDecrypt_none, if_neg h6]
                dsimp only
                exact ⟨c6x, hc6, rfl⟩

/-- The whole frame loop under an identity cipher context equals the loop
under the Null context. -/
theorem unpackFrames_idctx (isRLE : Bool) :
    ∀ (fuel : Nat) (c : CipherCtx) (bs : List Nat), CtxId c →
      unpackFrames isRLE fuel c bs = unpackFrames isRLE fuel CipherCtx.none bs
  | 0, _, _, _ => rfl
  | _ + 1, _, [], _ => rfl
  | fuel + 1, c, b :: rest, h => by
    obtain ⟨c2, hc2, hp⟩ := parseFrame_idctx isRLE c b rest h
    obtain ⟨c3, hc3, hpn⟩ := parseFrame_idctx isRLE CipherCtx.none b rest trivial
    have hgctx : (parseFrame isRLE CipherCtx.none b rest).ctx = c3 := by
      rw [hpn]
    simp only [unpackFrames]
    rw [hp]
    dsimp only
    rw [unpackFrames_idctx isRLE fuel c2 _ hc2, hgctx,
      unpackFrames_idctx isRLE fuel c3 _ hc3]

/-- C9: an RC4 instance initialized with the empty key is the identity
transform (init returns before key scheduling, leaving the zero state, so
every keystream byte is zero), and consequently unpacking an archive whose
magic is MINIBK_R with an empty password decodes every byte exactly as a
Null-cipher archive with the same body would: every read byte is left
unmodified. -/
theorem c9_empty_key_identity (buf : List Nat) (bs : List Nat)
    (hmagic : bs.take 8 = rc4Magic) :
    (rc4Cipher (rc4Init []) buf).2 = buf
    ∧ unpackBytes bs [] = unpackBytes (nullMagic ++ bs.drop 8) [] := by
  refine ⟨(rc4Cipher_zero buf _ rc4Init_nil_zero).1, ?_⟩
  have hn8 : (nullMagic ++ bs.drop 8).take 8 = nullMagic := List.take_left' rfl
  have hd8 : (nullMagic ++ bs.drop 8).drop 8 = bs.drop 8 := List.drop_left' rfl
  have hd9 : (nullMagic ++ bs.drop 8).drop 9 = (bs.drop 8).drop 1 := rfl
  have hbs9 : (bs.drop 8).drop 1 = bs.drop 9 := by
    rw [List.drop_drop]
  have hne1 : ¬ (nullMagic ++ bs.drop 8).take 8 = rc4Magic := by
    rw [hn8]; decide
  have hne2 : ¬ (nullMagic ++ bs.drop 8).take 8 = xorMagic := by
    rw [hn8]; decide
  unfold unpackBytes
  rw [if_pos hmagic, if_neg hne1, if_neg hne2, if_pos hn8, hd8, hd9, hbs9]
  exact congrArg Except.ok (unpackFrames_idctx _ _ _ _ rc4Init_nil_zero)

/-- C9 at a concrete RC4-magic archive (one truncated frame byte) and a
concrete two-byte buffer. -/
theorem c9_empty_key_identity_witness :
    (rc4Magic ++ [0, 9]).take 8 = rc4Magic
    ∧ ((rc4Cipher (rc4Init []) [1, 2]).2 = [1, 2]
       ∧ unpackBytes (rc4Magic ++ [0, 9]) []
           = unpackBytes (nullMagic ++ (rc4Magic ++ [0, 9]).drop 8) []) :=
  ⟨by decide, c9_empty_key_identity [1, 2] (rc4Magic ++ [0, 9]) (by decide)⟩
